import Mathlib

/-!
# Verification of the `neohtml` (oreneo) page parser and HTML emitter

Shallow embedding of `src/page/mod.rs`, `src/page/attribute.rs` and
`src/page/section.rs`.  Input lines are modelled as `List String`
(the `BufRead::lines` view of the source text), the single-lookahead
reader as an explicit structure, and all fallible operations return
`Except PageParseError`.  All definitions are structurally recursive
(loops carry an explicit fuel that the wrappers instantiate with a
bound derived from the number of unread lines), so every concrete
parse evaluates by `rfl`/`decide`.

String primitives are re-implemented over `List Char` with Rust
semantics (`str::trim`, `str::strip_prefix`, `BufRead::lines`, ...)
instead of Lean's built-ins, so that proofs can reason by list
induction and concrete runs reduce in the kernel.
-/

namespace Oreneo

/-! ## String primitives (Rust semantics) -/

/-- Rust `char::is_whitespace`, restricted to the ASCII whitespace that can
occur in this code base (Lean's `Char.isWhitespace`: space, tab, CR, LF). -/
def rustIsWS (c : Char) : Bool := c.isWhitespace

/-- Rust `str::trim_start` on the character list. -/
def trimLeftL (l : List Char) : List Char := l.dropWhile rustIsWS

/-- Rust `str::trim_end` on the character list. -/
def trimRightL (l : List Char) : List Char := (l.reverse.dropWhile rustIsWS).reverse

/-- Rust `str::trim`. -/
def rustTrim (s : String) : String := ⟨trimRightL (trimLeftL s.data)⟩

/-- Rust `str::trim_end`. -/
def rustTrimEnd (s : String) : String := ⟨trimRightL s.data⟩

/-- Rust `str::starts_with` (string pattern). -/
def startsWithL (s pre : String) : Bool := pre.data.isPrefixOf s.data

/-- Rust `str::ends_with` (char pattern). -/
def endsWithChar (s : String) (c : Char) : Bool := s.data.getLast? == some c

/-- Rust `str::strip_prefix`. -/
def stripPre (s pre : String) : Option String :=
  if startsWithL s pre then some ⟨s.data.drop pre.data.length⟩ else none

/-- Rust `str::strip_suffix`. -/
def stripSuf (s suf : String) : Option String :=
  if suf.data.isSuffixOf s.data then some ⟨s.data.take (s.data.length - suf.data.length)⟩
  else none

/-- Split a character list at the first occurrence of `sep`, returning the
part before and the part after.  `none` when `sep` does not occur. -/
def splitFirstAux (sep : List Char) : List Char → Option (List Char × List Char)
  | [] => none
  | c :: rest =>
    if sep.isPrefixOf (c :: rest) then some ([], (c :: rest).drop sep.length)
    else
      match splitFirstAux sep rest with
      | some (pre, post) => some (c :: pre, post)
      | none => none

/-- Modelled from the spec: the `scanf::sscanf!` calls with formats
`"{}: {}"` and `"{}:{}"` (the `scanf` crate is an external dependency, not
part of `src/`).  Per the spec's contract they "attempt to split on the
first `\": \"` occurrence into name and value", so this splits its input at
the first occurrence of `sep`. -/
def splitFirst (sep s : String) : Option (String × String) :=
  match splitFirstAux sep.data s.data with
  | some (pre, post) => some (⟨pre⟩, ⟨post⟩)
  | none => none

/-- Rust `str::split(c)`: splits at every occurrence of `c`; an empty input
yields `[""]`, and separators at the ends yield empty fragments. -/
def splitCharAux (c : Char) : List Char → List Char → List String
  | [], cur => [⟨cur.reverse⟩]
  | ch :: rest, cur =>
    if ch = c then ⟨cur.reverse⟩ :: splitCharAux c rest []
    else splitCharAux c rest (ch :: cur)

/-- Rust `str::split` with a char pattern. -/
def splitChar (c : Char) (s : String) : List String := splitCharAux c s.data []

/-- Rust `BufRead::lines` over an in-memory source: split on `'\n'`,
drop a final empty fragment produced by a trailing newline, and strip one
trailing `'\r'` from each line. -/
def rustLines (s : String) : List String :=
  if s.data.isEmpty then []
  else
    let parts := splitChar '\n' s
    let parts := if s.data.getLast? == some '\n' then parts.dropLast else parts
    parts.map fun l => ((stripSuf l "\r").getD l)

/-! ## Marker-line predicates (`src/page/mod.rs` lines 15-37) -/

/-- `has_section_prefix`. -/
def hasSectionMark (line : String) : Bool :=
  startsWithL line "--" || startsWithL line "```" || startsWithL line "#"

/-- `strip_section_prefix`. -/
def stripSectionMark (line : String) : Option String :=
  match stripPre line "--" with
  | some r => some (rustTrim r)
  | none => if startsWithL line "```" then some (rustTrim line) else none

/-- `has_attr_prefix`. -/
def hasAttrMark (line : String) : Bool := startsWithL line "--"

/-- `strip_attr_prefix`. -/
def stripAttrMark (line : String) : Option String :=
  (stripPre line "--").map rustTrim

/-- `line.trim().is_empty()`: the blank-line test used throughout. -/
def isBlank (line : String) : Bool := rustTrim line == ""

/-! ## Error type (`PageParseError`, `src/page/mod.rs` lines 361-397) -/

/-- `PageParseError`.  `ioError` mirrors the `IOError` variant (never
produced by the pure in-memory reader modelled here); `outOfFuel` is an
artifact of the fuel-based embedding of the mutually recursive section
grammar and is never reached when the fuel exceeds the number of unread
lines, as the top-level wrapper arranges. -/
inductive PageParseError where
  | ioError : PageParseError
  | expectedAttribute : String → PageParseError
  | expectedSection : String → PageParseError
  | unknownSection : String → PageParseError
  | missingAttributeArgument : String → PageParseError
  | unexpectedArgument : String → String → PageParseError
  | wrongMetadataFormat : String → PageParseError
  | emptyTitle : PageParseError
  | expectedImageSource : PageParseError
  | expectedVideoID : PageParseError
  | outOfFuel : PageParseError
deriving DecidableEq, Repr

/-- `PageBuildError` (`src/page/mod.rs` lines 400-405). -/
inductive PageBuildError where
  | relativePathNotFound : String → PageBuildError
deriving DecidableEq, Repr

/-! ## Attributes (`src/page/attribute.rs`) -/

/-- `Attribute` (the `class` and `show` variants are renamed `cls` and
`show'` because those words are Lean keywords). -/
inductive Attribute where
  | alt : String → Attribute
  | cls : String → Attribute
  | hidden : Attribute
  | id : String → Attribute
  | show' : Attribute
  | src : String → Attribute
  | title : String → Attribute
  | subtitle : String → Attribute
  | by' : String → Attribute
  | source : String → Attribute
  | url : String → Attribute
deriving DecidableEq, Repr

/-- The `attr_name` bound by `Attribute::parse`: the part before the first
`": "`, or the whole input when there is none. -/
def attrNameOf (attr : String) : String :=
  match splitFirst ": " attr with
  | some (n, _) => n
  | none => attr

/-- The `attr_value` bound by `Attribute::parse`. -/
def attrValueOf (attr : String) : Option String :=
  match splitFirst ": " attr with
  | some (_, v) => some v
  | none => none

/-- The `with_arg!` macro body. -/
def withArg (name : String) (value : Option String) (ctor : String → Attribute) :
    Except PageParseError (Option Attribute) :=
  match value with
  | some v => .ok (some (ctor v))
  | none => .error (.missingAttributeArgument name)

/-- The `no_args!` macro body. -/
def noArgs (name : String) (value : Option String) (a : Attribute) :
    Except PageParseError (Option Attribute) :=
  match value with
  | some v => .error (.unexpectedArgument v name)
  | none => .ok (some a)

/-- The names recognized by `Attribute::parse`'s `match`. -/
def recognizedAttrNames : List String :=
  ["alt", "class", "hidden", "id", "show", "src", "title", "subtitle", "by", "source", "url"]

/-- `Attribute::parse`. -/
def Attribute.parse (attr : String) : Except PageParseError (Option Attribute) :=
  let name := attrNameOf attr
  let value := attrValueOf attr
  if name = "alt" then withArg name value .alt
  else if name = "class" then withArg name value .cls
  else if name = "hidden" then noArgs name value .hidden
  else if name = "id" then withArg name value .id
  else if name = "show" then noArgs name value .show'
  else if name = "src" then withArg name value .src
  else if name = "title" then withArg name value .title
  else if name = "subtitle" then withArg name value .subtitle
  else if name = "by" then withArg name value .by'
  else if name = "source" then withArg name value .source
  else if name = "url" then withArg name value .url
  else .ok none

/-- `Attribute::to_html`. -/
def Attribute.toHtml : Attribute → Option String
  | .alt v => some ("alt=\"" ++ v ++ "\"")
  | .cls v => some ("class=\"" ++ v ++ "\"")
  | .hidden => some "hidden"
  | .id v => some ("id=\"" ++ v ++ "\"")
  | .show' => none
  | .src v => some ("src=\"" ++ v ++ "\"")
  | .title v => some ("title=\"" ++ v ++ "\"")
  | .subtitle _ => none
  | .by' _ => none
  | .source _ => none
  | .url _ => none

/-! ## The line reader (`Reader`, `src/page/mod.rs` lines 93-153)

The underlying `std::io::Lines` iterator is modelled as the list of
remaining lines (`rest`); `peek` is the one-line lookahead cache. -/

/-- `Reader`: lookahead cache plus remaining lines. -/
structure Reader where
  peek : Option String
  rest : List String
deriving DecidableEq, Repr

/-- Number of unread lines (cache included); the fuel bound for loops. -/
def Reader.size (r : Reader) : Nat :=
  (match r.peek with | some _ => 1 | none => 0) + r.rest.length

/-- The observable sequence of unread lines. -/
def Reader.lines (r : Reader) : List String :=
  (match r.peek with | some l => [l] | none => []) ++ r.rest

/-- `Reader::peek_line`: fill the cache from the source if it is empty and
return its content without consuming. -/
def peekLine (r : Reader) : Option String × Reader :=
  match r.peek with
  | some l => (some l, r)
  | none =>
    match r.rest with
    | [] => (none, r)
    | l :: rest => (some l, ⟨some l, rest⟩)

/-- `Reader::next_line`: peek, then take the cache. -/
def nextLine (r : Reader) : Option String × Reader :=
  match peekLine r with
  | (l, r') => (l, { r' with peek := none })

/-- `Reader::next_line_if`: consume the peeked line only when `pred` holds. -/
def nextLineIf (pred : String → Bool) (r : Reader) : Option String × Reader :=
  match peekLine r with
  | (some l, r') => if pred l then (some l, { r' with peek := none }) else (none, r')
  | (none, r') => (none, r')

/-- `Reader::next_line_if_map`: consume the peeked line only when `map`
succeeds, returning the mapped value. -/
def nextLineIfMap (map : String → Option String) (r : Reader) : Option String × Reader :=
  match peekLine r with
  | (some l, r') =>
    match map l with
    | some m => (some m, { r' with peek := none })
    | none => (none, r')
  | (none, r') => (none, r')

/-- The loop of `Reader::skip_blanks` (via `skip_blank`), fuelled. -/
def skipBlanksGo : Nat → Reader → Reader
  | 0, r => r
  | fuel + 1, r =>
    match nextLineIf isBlank r with
    | (some _, r') => skipBlanksGo fuel r'
    | (none, r') => r'

/-- `Reader::skip_blanks`.  Each iteration consumes one line, so
`r.size + 1` fuel always suffices. -/
def skipBlanks (r : Reader) : Reader := skipBlanksGo (r.size + 1) r

/-! ## The text accumulator (`Reader::next_text`, lines 155-235)

`next_text` takes an `FnMut` filter; the mutable closure state is made
explicit as a value of type `σ` threaded through the loop. -/

/-- The loop of `Reader::next_text`: repeatedly `next_line_if_map` the
(stateful) filter; in raw mode append the line verbatim plus `'\n'`, in
flowed mode append `'\n'` for a blank line and otherwise the line joined
by a single space (no space when the text already ends in `'\n'`). -/
def nextTextGo {σ : Type} (f : σ → String → Option String × σ) (raw : Bool) :
    Nat → σ → Reader → String → String × Reader
  | 0, _, r, text => (text, r)
  | fuel + 1, s, r, text =>
    match peekLine r with
    | (none, r') => (text, r')
    | (some l, r') =>
      match f s l with
      | (none, _) => (text, r')
      | (some line, s') =>
        let r'' : Reader := { r' with peek := none }
        if raw then nextTextGo f raw fuel s' r'' (text ++ line ++ "\n")
        else if isBlank line then nextTextGo f raw fuel s' r'' (text ++ "\n")
        else if endsWithChar text '\n' then nextTextGo f raw fuel s' r'' (text ++ line)
        else nextTextGo f raw fuel s' r'' (text ++ " " ++ line)

/-- `Reader::next_text` with a stateful filter: skip leading blanks, run
the loop, then `trim_end` (raw) or `trim` (flowed) the result. -/
def nextTextS {σ : Type} (f : σ → String → Option String × σ) (raw : Bool)
    (s : σ) (r : Reader) : String × Reader :=
  let r₁ := skipBlanks r
  let (text, r₂) := nextTextGo f raw (r₁.size + 1) s r₁ ""
  if raw then (rustTrimEnd text, r₂) else (rustTrim text, r₂)

/-- `Reader::next_text` with a stateless filter (all call sites except the
list-entry accumulation). -/
def nextTextP (f : String → Option String) (raw : Bool) (r : Reader) : String × Reader :=
  nextTextS (fun (_ : Unit) l => (f l, ())) raw () r

/-- `Reader::next_text_until` with a stateful predicate. -/
def nextTextUntilS {σ : Type} (stop : σ → String → Bool × σ) (raw : Bool)
    (s : σ) (r : Reader) : String × Reader :=
  nextTextS (fun st l => match stop st l with
    | (true, st') => (none, st')
    | (false, st') => (some l, st')) raw s r

/-- `Reader::next_text_until` with a stateless predicate. -/
def nextTextUntil (stop : String → Bool) (raw : Bool) (r : Reader) : String × Reader :=
  nextTextP (fun l => if stop l then none else some l) raw r

/-- The termination predicate of `Reader::next_text_until_tag`. -/
def untilTagPred (tag line : String) : Bool :=
  (tag == "```" && line == tag) ||
    (match stripSectionMark line with
     | some s =>
       match stripPre s "/" with
       | some t => t == tag
       | none => false
     | none => false)

/-- `Reader::next_text_until_tag`: accumulate until the closing marker,
then consume that marker line. -/
def nextTextUntilTag (tag : String) (raw : Bool) (r : Reader) : String × Reader :=
  let (text, r₁) := nextTextUntil (untilTagPred tag) raw r
  let (_, r₂) := nextLine r₁
  (text, r₂)

/-- `Reader::next_text_prefixed`. -/
def nextTextPrefixed (pre : String) (raw : Bool) (r : Reader) : String × Reader :=
  nextTextP (fun line => if isBlank line && raw then none else stripPre line pre) raw r

/-- `Reader::next_text_until_section`. -/
def nextTextUntilSection (raw : Bool) (r : Reader) : String × Reader :=
  nextTextUntil hasSectionMark raw r

/-! ## Attribute collection (`Reader::next_attr` / `next_attrs`, lines 238-257) -/

/-- `Reader::next_attr`: consume a `--`-prefixed line; when its body parses
as an attribute return it, otherwise put the line back into the cache. -/
def nextAttr (r : Reader) : Except PageParseError (Option Attribute × Reader) :=
  match nextLineIf hasAttrMark r with
  | (some line, r₁) =>
    match stripAttrMark line with
    | some attr =>
      match Attribute.parse attr with
      | .ok (some a) => .ok (some a, r₁)
      | .ok none => .ok (none, { r₁ with peek := some line })
      | .error e => .error e
    | none => .ok (none, r₁)
  | (none, r₁) => .ok (none, r₁)

/-- The loop of `Reader::next_attrs`, fuelled. -/
def nextAttrsGo : Nat → Reader → Except PageParseError (List Attribute × Reader)
  | 0, r => .ok ([], r)
  | fuel + 1, r =>
    match nextAttr r with
    | .error e => .error e
    | .ok (none, r') => .ok ([], r')
    | .ok (some a, r') =>
      match nextAttrsGo fuel r' with
      | .error e => .error e
      | .ok (attrs, r'') => .ok (a :: attrs, r'')

/-- `Reader::next_attrs`.  Each accepted attribute consumes one line, so
`r.size + 1` fuel always suffices. -/
def nextAttrs (r : Reader) : Except PageParseError (List Attribute × Reader) :=
  nextAttrsGo (r.size + 1) r

/-! ## List collection (`Reader::next_list` / `next_list_prefixed`, lines 259-295) -/

/-- The stateful `until` closure of `Reader::next_list` (`fist_line`). -/
def listEntryUntil (filter : String → Bool) (fist : Bool) (line : String) : Bool × Bool :=
  if fist then (false, false)
  else (hasSectionMark line || filter line, fist)

/-- The loop of `Reader::next_list`, fuelled: peek, stop unless `filter`
holds, accumulate one flowed entry (first line unconditionally), skip
blanks, repeat. -/
def nextListGo (filter : String → Bool) : Nat → Reader → List String × Reader
  | 0, r => ([], r)
  | fuel + 1, r =>
    match peekLine r with
    | (none, r') => ([], r')
    | (some line, r') =>
      if filter line then
        let (entry, r₂) := nextTextUntilS (listEntryUntil filter) false true r'
        let r₃ := skipBlanks r₂
        let (rest, r₄) := nextListGo filter fuel r₃
        (entry :: rest, r₄)
      else ([], r')

/-- `Reader::next_list`.  Each entry consumes at least its first line, so
`r.size + 1` fuel always suffices. -/
def nextList (filter : String → Bool) (r : Reader) : List String × Reader :=
  let r₁ := skipBlanks r
  nextListGo filter (r₁.size + 1) r₁

/-- `Reader::next_list_prefixed`. -/
def nextListPrefixed (pre : String) (r : Reader) : List String × Reader :=
  let (entries, r') := nextList (fun line => startsWithL line pre) r
  (entries.map fun e => (stripPre e pre).getD e, r')

/-! ## Sections (`src/page/section.rs`) -/

/-- `Section` (the `Text` field `class` is renamed `cls`; `Metadata`'s
`HashMap` is modelled as an insertion list with last-write-wins keys). -/
inductive Section where
  | text : (tag : String) → (cls : Option (List String)) →
      (attributes : List Attribute) → (content : String) → Section
  | textWrapper : (tag : String) → (attributes : List Attribute) →
      (content : String) → Section
  | container : (tag : String) → (attributes : List Attribute) →
      (content : List Section) → Section
  | code : (tag : String) → (attributes : List Attribute) →
      (content : String) → Section
  | tag : (tag : String) → (attributes : List Attribute) → Section
  | bookmark : (attributes : List Attribute) → (content : String) → Section
  | notes : (cls : String) → (attributes : List Attribute) →
      (content : List String) → Section
  | list : (tag : String) → (attributes : List Attribute) →
      (content : List String) → Section
  | checklist : (attributes : List Attribute) → (prelude : String) →
      (content : List String) → (todo : Bool) → Section
  | image : (src : String) → (attributes : List Attribute) → Section
  | youtube : (id : String) → Section
  | vimeo : (id : String) → Section
  | hidden : (content : String) → Section
  | metadata : (data : List (String × String)) → Section
  | categories : (categories : List String) → Section

/-- `attr!($attrs, $attr)`: first attribute of the given variant. -/
def findAttrTitle (attrs : List Attribute) : Option String :=
  attrs.findSome? fun a => match a with | .title v => some v | _ => none

/-- `attr!` for `Subtitle`. -/
def findAttrSubtitle (attrs : List Attribute) : Option String :=
  attrs.findSome? fun a => match a with | .subtitle v => some v | _ => none

/-- `attr!` for `By`. -/
def findAttrBy (attrs : List Attribute) : Option String :=
  attrs.findSome? fun a => match a with | .by' v => some v | _ => none

/-- `attr!` for `Source`. -/
def findAttrSource (attrs : List Attribute) : Option String :=
  attrs.findSome? fun a => match a with | .source v => some v | _ => none

/-- `attr!` for `Url`. -/
def findAttrUrl (attrs : List Attribute) : Option String :=
  attrs.findSome? fun a => match a with | .url v => some v | _ => none

/-- `attributes.remove(attributes.iter().position(..).unwrap())`: remove the
first element satisfying `p` (identity when none does). -/
def removeFirst (p : Attribute → Bool) : List Attribute → List Attribute
  | [] => []
  | a :: rest => if p a then rest else a :: removeFirst p rest

/-- `map_code_tag` (local function inside `Section::parse`). -/
def mapCodeTag (tag : String) : String := if tag = "css" then "style" else tag

/-- The multi-pattern arm `"title" | "subtitle" | "h1" ..= | "footnote"`. -/
def textSectionNames : List String :=
  ["title", "subtitle", "h1", "h2", "h3", "h4", "h5", "h6", "p", "nav", "footnote"]

/-- The container-with-slash arm's patterns. -/
def containerSlashNames : List String :=
  ["article/", "section/", "div/", "code/", "pre/", "script/", "html/", "css/"]

/-- The code-family arm's patterns. -/
def codeSectionNames : List String := ["code", "pre", "script", "html", "css"]

/-- Every keyword matched by an arm of `Section::parse` other than the
final catch-all (the fenced-code form is handled before the `match`). -/
def knownSectionNames : List String :=
  textSectionNames ++ ["aside", "blockquote", "ref", "note", "warning"] ++
    containerSlashNames ++ codeSectionNames ++
    ["hr", "bookmark", "notes", "warnings", "list", "olist", "checklist", "todo",
     "image", "youtube", "vimeo", "hidden", "metadata", "categories"]

/-- Build the `Metadata` map from the raw `--`-prefixed block: each line is
split at the first `':'`; both halves are trimmed; keys are unique with
last write winning (`HashMap::insert`). -/
def metaInsert (key value : String) : List (String × String) → List (String × String)
  | [] => [(key, value)]
  | (k, v) :: rest => if k = key then (k, value) :: rest else (k, v) :: metaInsert key value rest

/-- The metadata loop: `sscanf!(metaline, "{}:{}", ..)` per line, erroring
on a line without `':'`. -/
def metaLines : List String → List (String × String) →
    Except PageParseError (List (String × String))
  | [], acc => .ok acc
  | line :: rest, acc =>
    match splitFirst ":" line with
    | some (name, value) => metaLines rest (metaInsert (rustTrim name) (rustTrim value) acc)
    | none => .error (.wrongMetadataFormat line)

/-- The filter closure for heading continuation inside
`Reader::next_sections`: blank lines are kept as-is; other lines must
start with the heading's exact `#`-run (`pre`) and are kept with that run
stripped, unless the remainder starts with another `'#'`. -/
def headingFilter (pre line : String) : Option String :=
  if isBlank line then some line
  else
    match stripPre line pre with
    | none => none
    | some rest => if startsWithL rest "#" then none else some rest

/-- The end-tag test at the top of the `Reader::next_sections` loop: the
peeked line closes the requested container. -/
def closesEndTag (endTag : Option String) (line : String) : Bool :=
  match endTag with
  | none => false
  | some et =>
    match stripSectionMark line with
    | some s =>
      match stripPre s "/" with
      | some t => t == et
      | none => false
    | none => false

/-- The checklist entry predicate (`[]` / `[x]` prefixes). -/
def checklistEntry (line : String) : Bool :=
  startsWithL line "[]" || startsWithL line "[x]"

/-- The fenced-code arm of `Section::parse` (marker starting with ```` ``` ````,
`language` the remainder). -/
def parseFence (language : String) (r : Reader) :
    Except PageParseError (Section × Reader) :=
  match nextAttrs r with
  | .error e => .error e
  | .ok (attrs, r₁) =>
    let attrs := if language ≠ "" then attrs ++ [.cls ("language-" ++ language)] else attrs
    let (content, r₂) := nextTextUntilTag "```" true r₁
    .ok (.code "code" attrs content, r₂)

/-- The `"title" | "subtitle" | "h1" ..= "footnote"` arm of `Section::parse`. -/
def parseTextSection (sec : String) (r : Reader) :
    Except PageParseError (Section × Reader) :=
  let tag := if sec = "title" then "h1"
    else if sec = "subtitle" then "p"
    else if sec = "footnote" then "p" else sec
  let cls := if sec = "title" ∨ sec = "subtitle" then some [sec] else none
  match nextAttrs r with
  | .error e => .error e
  | .ok (attrs, r₁) =>
    if sec = "title" ∨ sec = "subtitle" then
      let r₂ := skipBlanks r₁
      match nextLine r₂ with
      | (some content, r₃) => .ok (.text tag cls attrs content, r₃)
      | (none, _) => .error .emptyTitle
    else
      let (content, r₂) := nextTextUntilSection false r₁
      .ok (.text tag cls attrs content, r₂)

/-- The `"aside"` arm of `Section::parse`. -/
def parseAside (sec : String) (r : Reader) : Except PageParseError (Section × Reader) :=
  match nextAttrs r with
  | .error e => .error e
  | .ok (attrs, r₁) =>
    let (content, r₂) := nextTextUntilSection false r₁
    .ok (.textWrapper sec attrs content, r₂)

/-- The `"blockquote"` arm of `Section::parse`. -/
def parseBlockquote (sec : String) (r : Reader) : Except PageParseError (Section × Reader) :=
  match nextAttrs r with
  | .error e => .error e
  | .ok (attrs, r₁) =>
    let (content, r₂) := nextTextUntilSection false r₁
    let content :=
      match findAttrBy attrs with
      | some byv =>
        let content := content ++ "\n-- " ++ byv
        match findAttrSource attrs with
        | some srcv =>
          match findAttrUrl attrs with
          | some url => content ++ " (>" ++ srcv ++ ">" ++ url ++ ">)"
          | none => content ++ " (" ++ srcv ++ ")"
        | none => content
      | none => content
    .ok (.textWrapper sec attrs content, r₂)

/-- The `"ref"` arm of `Section::parse`. -/
def parseRef (sec : String) (r : Reader) : Except PageParseError (Section × Reader) :=
  match nextAttrs r with
  | .error e => .error e
  | .ok (attrs, r₁) =>
    let (content, r₂) := nextTextUntilSection false r₁
    let (attrs, content) :=
      match findAttrTitle attrs with
      | some title =>
        let title :=
          match findAttrUrl attrs with
          | some url => ">" ++ title ++ ">" ++ url ++ ">"
          | none => title
        let (attrs, content) :=
          match findAttrSubtitle attrs with
          | some sub =>
            (removeFirst (fun a => match a with | .subtitle _ => true | _ => false) attrs,
              title ++ " " ++ sub ++ "\n" ++ content)
          | none => (attrs, title ++ "\n" ++ content)
        (removeFirst (fun a => match a with | .title _ => true | _ => false) attrs,
          content)
      | none => (attrs, content)
    .ok (.textWrapper sec attrs content, r₂)

/-- The `"note" | "warning"` arm of `Section::parse`. -/
def parseNoteWarning (sec : String) (r : Reader) : Except PageParseError (Section × Reader) :=
  match nextAttrs r with
  | .error e => .error e
  | .ok (attrs, r₁) =>
    let (content, r₂) := nextTextUntilSection false r₁
    .ok (.textWrapper ("div class = \"" ++ sec ++ "\"") attrs content, r₂)

/-- The `"code" | "pre" | "script" | "html" | "css"` (no slash) arm of
`Section::parse`. -/
def parseCodeSection (sec : String) (r : Reader) : Except PageParseError (Section × Reader) :=
  match nextAttrs r with
  | .error e => .error e
  | .ok (attrs, r₁) =>
    let (content, r₂) := nextTextUntilSection true r₁
    .ok (.code (mapCodeTag sec) attrs content, r₂)

/-- The `"hr"` arm of `Section::parse`. -/
def parseHr (sec : String) (r : Reader) : Except PageParseError (Section × Reader) :=
  match nextAttrs r with
  | .error e => .error e
  | .ok (attrs, r₁) => .ok (.tag sec attrs, r₁)

/-- The `"bookmark"` arm of `Section::parse`. -/
def parseBookmark (r : Reader) : Except PageParseError (Section × Reader) :=
  match nextAttrs r with
  | .error e => .error e
  | .ok (attrs, r₁) =>
    let (content, r₂) := nextTextUntilSection false r₁
    .ok (.bookmark attrs content, r₂)

/-- The `"notes" | "warnings"` arm of `Section::parse`. -/
def parseNotesSection (sec : String) (r : Reader) : Except PageParseError (Section × Reader) :=
  match nextAttrs r with
  | .error e => .error e
  | .ok (attrs, r₁) =>
    let (entries, r₂) := nextListPrefixed "- " r₁
    .ok (.notes ⟨sec.data.dropLast⟩ attrs entries, r₂)

/-- The `"list" | "olist"` arm of `Section::parse`. -/
def parseListSection (sec : String) (r : Reader) : Except PageParseError (Section × Reader) :=
  match nextAttrs r with
  | .error e => .error e
  | .ok (attrs, r₁) =>
    let (entries, r₂) := nextListPrefixed "- " r₁
    .ok (.list (if sec = "olist" then "ol" else "ul") attrs entries, r₂)

/-- The `"checklist" | "todo"` arm of `Section::parse`. -/
def parseChecklist (sec : String) (r : Reader) : Except PageParseError (Section × Reader) :=
  match nextAttrs r with
  | .error e => .error e
  | .ok (attrs, r₁) =>
    let (prelude, r₂) := nextTextUntil checklistEntry false r₁
    let (entries, r₃) := nextList checklistEntry r₂
    .ok (.checklist attrs prelude entries (sec = "todo"), r₃)

/-- The `"image"` arm of `Section::parse`. -/
def parseImage (r : Reader) : Except PageParseError (Section × Reader) :=
  match nextLineIfMap stripAttrMark r with
  | (some srcv, r₁) =>
    match nextAttrs r₁ with
    | .error e => .error e
    | .ok (attrs, r₂) => .ok (.image srcv attrs, r₂)
  | (none, _) => .error .expectedImageSource

/-- The `"youtube"` arm of `Section::parse`. -/
def parseYoutube (r : Reader) : Except PageParseError (Section × Reader) :=
  match nextLineIfMap stripAttrMark r with
  | (some vid, r₁) => .ok (.youtube vid, r₁)
  | (none, _) => .error .expectedVideoID

/-- The `"vimeo"` arm of `Section::parse`. -/
def parseVimeo (r : Reader) : Except PageParseError (Section × Reader) :=
  match nextLineIfMap stripAttrMark r with
  | (some vid, r₁) => .ok (.vimeo vid, r₁)
  | (none, _) => .error .expectedVideoID

/-- The `"hidden"` arm of `Section::parse`. -/
def parseHidden (r : Reader) : Except PageParseError (Section × Reader) :=
  let (content, r₁) := nextTextUntilSection true r
  .ok (.hidden content, r₁)

/-- The `"metadata"` arm of `Section::parse`. -/
def parseMetadata (r : Reader) : Except PageParseError (Section × Reader) :=
  let (text, r₁) := nextTextPrefixed "--" true r
  match metaLines (splitChar '\n' text) [] with
  | .ok data => .ok (.metadata data, r₁)
  | .error e => .error e

/-- The `"categories"` arm of `Section::parse`. -/
def parseCategories (r : Reader) : Except PageParseError (Section × Reader) :=
  let (text, r₁) := nextTextPrefixed "--" true r
  .ok (.categories ((splitChar '\n' text).map rustTrim), r₁)

mutual

/-- `Reader::next_sections`: skip blanks; stop at end of input, or consume
the matching `/tag` marker when one was requested; `#`-headings read a
flowed body via `headingFilter`; other marker lines dispatch to
`Section::parse`; anything else is a flowed `p` paragraph.  The fuel is
an embedding artifact: it bounds the loop/recursion depth and is
instantiated by `Page.fromSource` with a bound the parse cannot reach. -/
def nextSections (fuel : Nat) (endTag : Option String) (r : Reader) :
    Except PageParseError (List Section × Reader) :=
  match fuel with
  | 0 => .error .outOfFuel
  | fuel + 1 =>
    let r₁ := skipBlanks r
    match peekLine r₁ with
    | (none, r₂) => .ok ([], r₂)
    | (some line, r₂) =>
      if closesEndTag endTag line then
        let (_, r₃) := nextLine r₂
        .ok ([], r₃)
      else if startsWithL line "#" then
        let pre : String := ⟨line.data.takeWhile (· == '#')⟩
        let (content, r₃) := nextTextP (headingFilter pre) false r₂
        let s := Section.text ("h" ++ toString pre.data.length) none [] content
        match nextSections fuel endTag r₃ with
        | .error e => .error e
        | .ok (sections, r₄) => .ok (s :: sections, r₄)
      else
        match stripSectionMark line with
        | some sec =>
          let (_, r₃) := nextLine r₂
          match parseSection fuel r₃ sec with
          | .error e => .error e
          | .ok (s, r₄) =>
            match nextSections fuel endTag r₄ with
            | .error e => .error e
            | .ok (sections, r₅) => .ok (s :: sections, r₅)
        | none =>
          let (content, r₃) := nextTextUntil hasSectionMark false r₂
          let s := Section.text "p" none [] content
          match nextSections fuel endTag r₃ with
          | .error e => .error e
          | .ok (sections, r₄) => .ok (s :: sections, r₄)

/-- `Section::parse`: dispatch on the marker keyword (the body of the
marker line, prefix already stripped). -/
def parseSection (fuel : Nat) (r : Reader) (sec : String) :
    Except PageParseError (Section × Reader) :=
  match fuel with
  | 0 => .error .outOfFuel
  | fuel + 1 =>
    match stripPre sec "```" with
    | some language => parseFence language r
    | none =>
      if sec ∈ textSectionNames then parseTextSection sec r
      else if sec = "aside" then parseAside sec r
      else if sec = "blockquote" then parseBlockquote sec r
      else if sec = "ref" then parseRef sec r
      else if sec = "note" ∨ sec = "warning" then parseNoteWarning sec r
      else if sec ∈ containerSlashNames then
        let tag := (stripSuf sec "/").getD sec
        match nextAttrs r with
        | .error e => .error e
        | .ok (attrs, r₁) =>
          if tag ∈ codeSectionNames then
            let (content, r₂) := nextTextUntilTag tag true r₁
            .ok (.code (mapCodeTag tag) attrs content, r₂)
          else
            match nextSections fuel (some tag) r₁ with
            | .error e => .error e
            | .ok (children, r₂) => .ok (.container tag attrs children, r₂)
      else if sec ∈ codeSectionNames then parseCodeSection sec r
      else if sec = "hr" then parseHr sec r
      else if sec = "bookmark" then parseBookmark r
      else if sec = "notes" ∨ sec = "warnings" then parseNotesSection sec r
      else if sec = "list" ∨ sec = "olist" then parseListSection sec r
      else if sec = "checklist" ∨ sec = "todo" then parseChecklist sec r
      else if sec = "image" then parseImage r
      else if sec = "youtube" then parseYoutube r
      else if sec = "vimeo" then parseVimeo r
      else if sec = "hidden" then parseHidden r
      else if sec = "metadata" then parseMetadata r
      else if sec = "categories" then parseCategories r
      else .error (.unknownSection sec)

end

/-! ## Pages (`src/page/mod.rs` lines 39-90) -/

/-- `Page`. -/
structure Page where
  sections : List Section

/-- `Page::from_source` / `Page::new`: read all top-level sections.  The
fuel `2 * lines + 8` strictly exceeds what the mutual recursion can use,
since every section and every nesting level consumes at least one line. -/
def Page.fromSource (source : String) : Except PageParseError Page :=
  let lines := rustLines source
  match nextSections (2 * lines.length + 8) none ⟨none, lines⟩ with
  | .ok (sections, _) => .ok ⟨sections⟩
  | .error e => .error e

/-! ## HTML emission (`src/page/section.rs` lines 328-666)

The inline text formatter `text_to_html` and the link resolver
`format_link` are regex-driven rewrites over the escaped text plus a
`Path`-based root resolution; no claim depends on their output, so the
emitter is parametrized by two total functions `fmt` (for
`text_to_html(project_root, ..)`) and `flink` (for
`format_link(project_root, ..)`), which also absorb the `project_root`
argument.  Every theorem about the emitter is proved for all such
functions. -/

/-- One character's replacement in `str::replace`. -/
def replaceCharL (c : Char) (rep : List Char) : List Char → List Char
  | [] => []
  | ch :: rest => (if ch = c then rep else [ch]) ++ replaceCharL c rep rest

/-- `escape_html`: `&` then `<` then `>` (the sequential `str::replace`
calls commute into one character map because no replacement string
contains a character replaced by a later call). -/
def escapeHtml (code : String) : String :=
  ⟨replaceCharL '>' "&gt;".data
    (replaceCharL '<' "&lt;".data
      (replaceCharL '&' "&amp;".data code.data))⟩

/-- The `attributes!` macro: one leading space before each rendered
attribute, duplicates kept, order preserved. -/
def attrsHtml (attrs : List Attribute) : String :=
  attrs.foldl (fun acc a =>
    match a.toHtml with
    | some html => acc ++ " " ++ html
    | none => acc) ""

/-- The `title!` macro with explicit wrapping tag. -/
def titleHtmlTag (fmt : String → String) (attrs : List Attribute) (tag : String) : String :=
  match findAttrTitle attrs with
  | some title => "<" ++ tag ++ ">" ++ fmt title ++ "</" ++ tag ++ ">"
  | none => ""

/-- The `title!` macro with the default `h4` tag. -/
def titleHtml (fmt : String → String) (attrs : List Attribute) : String :=
  titleHtmlTag fmt attrs "h4"

/-- The local `format_code` helper. -/
def formatCode (content title attributes : String) : String :=
  "<pre>" ++ title ++ "<code" ++ attributes ++ ">" ++ escapeHtml content ++ "</code></pre>"

/-- `join_iter(iter, "")` over already-rendered items. -/
def joinIter (items : List String) (sep : String) : String :=
  (items.intersperse sep).foldl (· ++ ·) ""

/-- `has_attr!($attrs, Show)`. -/
def hasAttrShow (attrs : List Attribute) : Bool :=
  attrs.any fun a => match a with | .show' => true | _ => false

/-- The checklist item body: strip the `[]` / `[x]` marker (`unwrap` in the
source; entries produced by the parser always carry one of the two). -/
def checklistItemBody (item : String) : String :=
  ((stripPre item "[]").or (stripPre item "[x]")).getD item

mutual

/-- `Section::to_html`, parametrized by the inline formatter and link
resolver (see the section header). -/
def sectionToHtml (fmt flink : String → String) :
    Section → Except PageBuildError String
  | .text tg cls attrs content =>
    .ok ("<" ++ tg ++
      (match cls with
       | some classes => " class=\"" ++ classes.foldl (fun buffer c => buffer ++ c) "" ++ "\""
       | none => "") ++
      attrsHtml attrs ++ ">" ++ titleHtml fmt attrs ++ fmt content ++ "</" ++ tg ++ ">")
  | .textWrapper tg attrs content =>
    .ok ("<" ++ tg ++ attrsHtml attrs ++ ">" ++ titleHtml fmt attrs ++
      "<p>" ++ fmt content ++ "</p></" ++ tg ++ ">")
  | .container tg attrs children =>
    match sectionsToHtml fmt flink children with
    | .error e => .error e
    | .ok inner =>
      .ok ("<" ++ tg ++ attrsHtml attrs ++ ">" ++ titleHtml fmt attrs ++ inner ++
        "</" ++ tg ++ ">")
  | .code tg attrs content =>
    .ok (if tg = "code" then formatCode content (titleHtml fmt attrs) (attrsHtml attrs)
      else
        "<" ++ tg ++ attrsHtml attrs ++ ">" ++ content ++ "</" ++ tg ++ ">" ++
          (if hasAttrShow attrs then formatCode content (titleHtml fmt attrs) "" else ""))
  | .tag tg attrs => .ok ("<" ++ tg ++ attrsHtml attrs ++ " />")
  | .bookmark attrs content =>
    .ok ("<div class = \"bookmark\"" ++ attrsHtml attrs ++ ">" ++
      (match findAttrTitle attrs with
       | some title =>
         "<h4>" ++
           (match findAttrUrl attrs with
            | some url => fmt (">" ++ title ++ ">" ++ url ++ ">")
            | none => fmt title) ++ "</h4>"
       | none => "") ++
      fmt content ++ "</div>")
  | .notes cls attrs content =>
    .ok ("<div class = \"" ++ cls ++ "\"" ++ attrsHtml attrs ++ ">" ++ titleHtml fmt attrs ++
      "<ul>" ++
      joinIter (content.map fun item => "<li><p>" ++ fmt item ++ "</p></li>") "" ++
      "</ul></div>")
  | .list tg attrs content =>
    .ok ("<div" ++ attrsHtml attrs ++ ">" ++ titleHtml fmt attrs ++
      "<" ++ tg ++ ">" ++
      joinIter (content.map fun item => "<li><p>" ++ fmt item ++ "</p></li>") "" ++
      "</" ++ tg ++ "></div>")
  | .checklist attrs prelude content todo =>
    .ok ("<div" ++ attrsHtml attrs ++ ">" ++ titleHtml fmt attrs ++
      "<p>" ++ fmt prelude ++ "</p>" ++
      joinIter (content.map fun item =>
        "<label><input type=\"checkbox\" " ++
          (if todo then "disabled " else "") ++
          (if startsWithL item "[x]" then "checked " else "") ++
          "/> " ++ fmt (checklistItemBody item) ++ "</label><br>") "" ++
      "</div>")
  | .image src attrs =>
    .ok (titleHtmlTag fmt attrs "h2 class = \"imageTitle\"" ++
      "<image src = \"" ++ flink src ++ "\"" ++ attrsHtml attrs ++ " />")
  | .youtube vid =>
    .ok ("<iframe width=\"623\" height=\"350\" src=\"https://www.youtube-nocookie.com/embed/" ++
      vid ++ "\" title=\"YouTube video player\" allow=\"accelerometer; autoplay; " ++
      "clipboard-write; encrypted-media; gyroscope; picture-in-picture; web-share\" " ++
      "allowfullscreen=\"\"></iframe>")
  | .vimeo vid =>
    .ok ("<div style=\"padding:56.25% 0 0 0;position:relative;\">" ++
      "<iframe src=\"https://player.vimeo.com/video/" ++ vid ++
      "?title=0&byline=0&portrait=0\" " ++
      "style=\"position:absolute;top:0;left:0;width:100%;height:100%;\" " ++
      "frameborder=\"0\" allow=\"autoplay; fullscreen; picture-in-picture\" " ++
      "allowfullscreen></iframe></div>")
  | .hidden content => .ok ("<!-- " ++ escapeHtml content ++ " -->")
  | .metadata _ => .ok ""
  | .categories _ => .ok ""

/-- The `for section in content { html.push_str(&section.to_html(..)?) }`
loop of the `Container` arm (also used by `Page::to_html`). -/
def sectionsToHtml (fmt flink : String → String) :
    List Section → Except PageBuildError String
  | [] => .ok ""
  | s :: rest =>
    match sectionToHtml fmt flink s with
    | .error e => .error e
    | .ok h =>
      match sectionsToHtml fmt flink rest with
      | .error e => .error e
      | .ok hs => .ok (h ++ hs)

end

/-- `Page::to_html` / `Page::to_html_string`, restricted to the section
content: the surrounding `build_html::HtmlPage` scaffolding (head links,
scripts) is an external crate that only concatenates strings and cannot
fail, so the fallible part is exactly the fold of `Section::to_html` over
the page's sections. -/
def Page.toHtml (fmt flink : String → String) (p : Page) :
    Except PageBuildError String :=
  sectionsToHtml fmt flink p.sections

/-! # Theorems

First a toolbox of lemmas about the reader and the string primitives,
then one theorem per claim (with witnesses / counterexamples). -/

/-! ## Reader toolbox -/

theorem peekLine_snd_lines (r : Reader) : ((peekLine r).2).lines = r.lines := by
  rcases r with ⟨peek, rest⟩
  cases peek <;> cases rest <;> simp [peekLine, Reader.lines]

theorem peekLine_snd_size (r : Reader) : ((peekLine r).2).size = r.size := by
  rcases r with ⟨peek, rest⟩
  cases peek <;> cases rest <;> simp [peekLine, Reader.size] <;> omega

theorem peekLine_fst (r : Reader) : (peekLine r).1 = r.lines.head? := by
  rcases r with ⟨peek, rest⟩
  cases peek <;> cases rest <;> simp [peekLine, Reader.lines]

theorem peekLine_some_peek {r : Reader} {l : String} {r' : Reader}
    (h : peekLine r = (some l, r')) : r'.peek = some l ∧ r'.lines = l :: r'.rest := by
  rcases r with ⟨peek, rest⟩
  cases peek with
  | some x => simp [peekLine] at h; simp [← h.2, h.1, Reader.lines]
  | none =>
    cases rest with
    | nil => simp [peekLine] at h
    | cons x t => simp [peekLine] at h; simp [← h.2, h.1, Reader.lines]

/-! ## C9: peek / next / next-if frame properties -/

/-- C9.  `peek_line` returns the next unconsumed line without advancing:
peeking again returns the same cached line and the same state, `next_line`
after the peek returns exactly that line, and `next_line_if` with a
predicate rejecting the peeked line returns no line and leaves the cursor
state (the cached line and the remaining lines) unchanged; the peek itself
changes no observable line. -/
theorem peek_next_if_frame (r : Reader) (l : String) (r₁ : Reader)
    (h : peekLine r = (some l, r₁)) :
    peekLine r₁ = (some l, r₁) ∧
    nextLine r = (some l, { r₁ with peek := none }) ∧
    nextLine r₁ = (some l, { r₁ with peek := none }) ∧
    r₁.lines = r.lines ∧ r₁.peek = some l ∧
    ∀ p : String → Bool, p l = false →
      nextLineIf p r = (none, r₁) ∧ nextLineIf p r₁ = (none, r₁) := by
  have hpeek := (peekLine_some_peek h).1
  have hlines : r₁.lines = r.lines := by
    have := peekLine_snd_lines r; rw [h] at this; exact this
  have hpeek₁ : peekLine r₁ = (some l, r₁) := by
    rcases r₁ with ⟨peek, rest⟩
    simp only [Reader.peek] at hpeek
    simp [peekLine, hpeek]
  refine ⟨hpeek₁, ?_, ?_, hlines, hpeek, ?_⟩
  · simp [nextLine, h]
  · simp [nextLine, hpeek₁]
  · intro p hp
    constructor
    · simp [nextLineIf, h, hp]
    · simp [nextLineIf, hpeek₁, hp]

/-- Witness for C9 at a concrete cursor: peeking `["x"]` caches the line,
and a rejecting `next_line_if` leaves that state unchanged. -/
theorem peek_next_if_frame_witness :
    peekLine (Reader.mk (some "x") []) = (some "x", Reader.mk (some "x") []) ∧
    nextLineIf (fun _ => false) (Reader.mk none ["x"]) = (none, Reader.mk (some "x") []) :=
  ⟨(peek_next_if_frame (Reader.mk none ["x"]) "x" (Reader.mk (some "x") []) rfl).1,
    ((peek_next_if_frame (Reader.mk none ["x"]) "x" (Reader.mk (some "x") []) rfl).2.2.2.2.2
      (fun _ => false) rfl).1⟩

/-! ## C5: container nesting on the reference input -/

/-- C5.  The input whose four lines are `--div/`, `--p`, `text` and the
`div`-closing marker parses to a page with exactly one top-level section:
a `div` container whose single child is the `p` text section with content
`"text"`; the closing marker line is consumed by the container and
produces no further section. -/
theorem container_nesting_div_p :
    Page.fromSource "--div/\n--p\ntext\n--/div" =
      .ok (Page.mk [.container "div" [] [.text "p" none [] "text"]]) := rfl

/-! ## C1: the attribute parser -/

theorem isPrefixOf_iff_exists {l₁ l₂ : List Char} :
    l₁.isPrefixOf l₂ = true ↔ ∃ t, l₂ = l₁ ++ t := by
  induction l₁ generalizing l₂ with
  | nil => simp
  | cons a as ih =>
    cases l₂ with
    | nil => simp
    | cons b bs =>
      simp only [List.isPrefixOf_cons₂, Bool.and_eq_true, beq_iff_eq, ih, List.cons_append,
        List.cons.injEq]
      constructor
      · rintro ⟨rfl, t, rfl⟩; exact ⟨t, rfl, rfl⟩
      · rintro ⟨t, rfl, rfl⟩; exact ⟨rfl, t, rfl⟩

theorem splitFirstAux_some {sep : List Char} :
    ∀ (l p q : List Char), splitFirstAux sep l = some (p, q) →
      l = p ++ sep ++ q ∧ ∀ p' q', l = p' ++ sep ++ q' → p.length ≤ p'.length := by
  intro l
  induction l with
  | nil => intro p q h; simp [splitFirstAux] at h
  | cons c rest ih =>
    intro p q h
    rw [splitFirstAux] at h
    by_cases hpre : sep.isPrefixOf (c :: rest) = true
    · rw [if_pos hpre] at h
      obtain ⟨t, ht⟩ := isPrefixOf_iff_exists.mp hpre
      simp only [Option.some.injEq, Prod.mk.injEq] at h
      obtain ⟨hp, hq⟩ := h
      subst hp
      have hdrop : (c :: rest).drop sep.length = t := by rw [ht, List.drop_left]
      rw [hdrop] at hq
      subst hq
      exact ⟨by simpa using ht, fun p' q' _ => Nat.zero_le _⟩
    · rw [if_neg hpre] at h
      cases hrec : splitFirstAux sep rest with
      | none => rw [hrec] at h; simp at h
      | some pr =>
        obtain ⟨pre, post⟩ := pr
        rw [hrec] at h
        simp only [Option.some.injEq, Prod.mk.injEq] at h
        obtain ⟨hp, hq⟩ := h
        subst hp
        subst hq
        obtain ⟨heq, hmin⟩ := ih pre post hrec
        refine ⟨by rw [heq]; simp, ?_⟩
        intro p' q' hco
        cases p' with
        | nil =>
          exact absurd (isPrefixOf_iff_exists.mpr ⟨q', by simpa using hco⟩) hpre
        | cons c' p'' =>
          simp only [List.cons_append, List.cons.injEq] at hco
          simpa using Nat.succ_le_succ (hmin p'' q' hco.2)

theorem splitFirstAux_none {sep : List Char} (hsep : sep ≠ []) :
    ∀ l : List Char, splitFirstAux sep l = none → ∀ p q, l ≠ p ++ sep ++ q := by
  intro l
  induction l with
  | nil =>
    intro _ p q hc
    rw [List.append_assoc] at hc
    obtain ⟨-, h2⟩ := List.append_eq_nil.mp hc.symm
    exact hsep (List.append_eq_nil.mp h2).1
  | cons c rest ih =>
    intro h
    rw [splitFirstAux] at h
    by_cases hpre : sep.isPrefixOf (c :: rest) = true
    · rw [if_pos hpre] at h; simp at h
    · rw [if_neg hpre] at h
      cases hrec : splitFirstAux sep rest with
      | some pr => obtain ⟨pre, post⟩ := pr; rw [hrec] at h; simp at h
      | none =>
        intro p q hc
        cases p with
        | nil => exact hpre (isPrefixOf_iff_exists.mpr ⟨q, by simpa using hc⟩)
        | cons c' p'' =>
          simp only [List.cons_append, List.cons.injEq] at hc
          exact ih hrec p'' q hc.2

/-- C1.  `Attribute::parse` splits its input at the first `": "` occurrence
into a name and a value (the split produced really is a decomposition, and
the name is the shortest among all such decompositions, i.e. the split is
at the *first* occurrence; when the split fails no decomposition exists and
the whole input is the name); `"id: foo"` parses to `Id "foo"`, `"hidden"`
to `Hidden`, `"hidden: x"` fails with the unexpected-argument error naming
the attribute, `"id"` fails with the missing-attribute-argument error
naming the attribute, and every input whose name is unrecognized yields
the non-error `Ok(None)` result. -/
theorem attribute_parse_contract :
    (∀ s n v : String, splitFirst ": " s = some (n, v) →
      s = n ++ ": " ++ v ∧ ∀ n' v' : String, s = n' ++ ": " ++ v' → n.length ≤ n'.length) ∧
    (∀ s : String, splitFirst ": " s = none → ∀ n v : String, s ≠ n ++ ": " ++ v) ∧
    Attribute.parse "id: foo" = .ok (some (.id "foo")) ∧
    Attribute.parse "hidden" = .ok (some .hidden) ∧
    Attribute.parse "hidden: x" = .error (.unexpectedArgument "x" "hidden") ∧
    Attribute.parse "id" = .error (.missingAttributeArgument "id") ∧
    (∀ s : String, attrNameOf s ∉ recognizedAttrNames → Attribute.parse s = .ok none) := by
  refine ⟨?_, ?_, rfl, rfl, rfl, rfl, ?_⟩
  · intro s n v h
    rw [splitFirst] at h
    cases haux : splitFirstAux ": ".data s.data with
    | none => rw [haux] at h; simp at h
    | some pr =>
      obtain ⟨pre, post⟩ := pr
      rw [haux] at h
      simp only [Option.some.injEq, Prod.mk.injEq] at h
      obtain ⟨hn, hv⟩ := h
      obtain ⟨heq, hmin⟩ := splitFirstAux_some s.data pre post haux
      constructor
      · apply String.ext
        simp only [String.data_append, ← hn, ← hv]
        exact heq
      · intro n' v' hs
        have hd : s.data = n'.data ++ ": ".data ++ v'.data := by
          rw [hs]; simp
        have hle : (⟨pre⟩ : String).length ≤ n'.length := hmin n'.data v'.data hd
        rwa [hn] at hle
  · intro s h n v hs
    rw [splitFirst] at h
    cases haux : splitFirstAux ": ".data s.data with
    | some pr => obtain ⟨pre, post⟩ := pr; rw [haux] at h; simp at h
    | none =>
      refine splitFirstAux_none (by decide) s.data haux n.data v.data ?_
      rw [hs]; simp
  · intro s h
    simp only [recognizedAttrNames, List.mem_cons, List.mem_singleton, not_or] at h
    obtain ⟨h1, h2, h3, h4, h5, h6, h7, h8, h9, h10, h11, -⟩ := h
    simp only [Attribute.parse, if_neg h1, if_neg h2, if_neg h3, if_neg h4, if_neg h5,
      if_neg h6, if_neg h7, if_neg h8, if_neg h9, if_neg h10, if_neg h11]

/-- Witness for C1: the decomposition facts at `"id: foo"` (split succeeds,
first-occurrence decomposition holds) and the unrecognized-name fact at
`"p"` (the `--p` marker of C5's input is not an attribute). -/
theorem attribute_parse_contract_witness :
    "id: foo" = "id" ++ ": " ++ "foo" ∧ Attribute.parse "p" = .ok none :=
  ⟨(attribute_parse_contract.1 "id: foo" "id" "foo" rfl).1,
    attribute_parse_contract.2.2.2.2.2.2 "p" (by decide)⟩

/-! ## Blank-line lemmas -/

theorem isBlank_iff_all_ws (l : String) :
    isBlank l = true ↔ ∀ c ∈ l.data, rustIsWS c = true := by
  have h1 : isBlank l = true ↔ rustTrim l = "" := by rw [isBlank, beq_iff_eq]
  rw [h1, rustTrim, show ("" : String) = ⟨[]⟩ from rfl, String.ext_iff]
  show trimRightL (trimLeftL l.data) = [] ↔ _
  rw [trimRightL, List.reverse_eq_nil_iff, List.dropWhile_eq_nil_iff]
  simp only [List.mem_reverse, trimLeftL]
  constructor
  · intro H c hc
    rcases List.mem_append.mp
        ((List.takeWhile_append_dropWhile (p := rustIsWS) (l := l.data)) ▸ hc) with h | h
    · exact List.mem_takeWhile_imp h
    · exact H c h
  · intro H c hc
    exact H c ((List.takeWhile_append_dropWhile (p := rustIsWS) (l := l.data)) ▸
      List.mem_append_right _ hc)

theorem isBlank_hasAttrMark {l : String} (h : isBlank l = true) : hasAttrMark l = false := by
  rw [hasAttrMark, startsWithL]
  by_contra hb
  rw [Bool.not_eq_false] at hb
  obtain ⟨t, ht⟩ := isPrefixOf_iff_exists.mp hb
  have hws : rustIsWS '-' = true :=
    (isBlank_iff_all_ws l).mp h '-' (by rw [ht]; exact List.mem_append_left _ (by decide))
  exact absurd hws (by decide)

theorem skipBlanksGo_all_blank :
    ∀ (n : Nat) (r : Reader), r.size < n → (∀ l ∈ r.lines, isBlank l = true) →
      skipBlanksGo n r = ⟨none, []⟩ := by
  intro n
  induction n with
  | zero => intro r h _; omega
  | succ n ih =>
    intro r hsize hbl
    rcases r with ⟨peek, rest⟩
    cases peek with
    | some l =>
      have hl : isBlank l = true := hbl l (by simp [Reader.lines])
      rw [skipBlanksGo]
      simp only [nextLineIf, peekLine, hl, if_true]
      refine ih ⟨none, rest⟩ ?_ ?_
      · simp only [Reader.size, List.length_cons] at hsize ⊢; omega
      · intro x hx
        refine hbl x ?_
        simp only [Reader.lines] at hx ⊢
        simpa using Or.inr (by simpa using hx)
    | none =>
      cases rest with
      | nil => rw [skipBlanksGo]; simp [nextLineIf, peekLine]
      | cons l t =>
        have hl : isBlank l = true := hbl l (by simp [Reader.lines])
        rw [skipBlanksGo]
        simp only [nextLineIf, peekLine, hl, if_true]
        refine ih ⟨none, t⟩ ?_ ?_
        · simp only [Reader.size, List.length_cons] at hsize ⊢; omega
        · intro x hx
          refine hbl x ?_
          simp only [Reader.lines] at hx ⊢
          simpa using Or.inr (by simpa using hx)

theorem skipBlanks_all_blank {r : Reader} (h : ∀ l ∈ r.lines, isBlank l = true) :
    skipBlanks r = ⟨none, []⟩ :=
  skipBlanksGo_all_blank (r.size + 1) r (Nat.lt_succ_self _) h

theorem nextAttr_all_blank {r : Reader} (h : ∀ l ∈ r.lines, isBlank l = true) :
    ∃ r', nextAttr r = .ok (none, r') ∧ r'.lines = r.lines := by
  rcases hp : peekLine r with ⟨ol, r₁⟩
  have hlines : r₁.lines = r.lines := by
    have := peekLine_snd_lines r; rw [hp] at this; exact this
  cases ol with
  | none =>
    refine ⟨r₁, ?_, hlines⟩
    rw [nextAttr, nextLineIf, hp]
  | some l =>
    have hmem : l ∈ r.lines := by
      have := peekLine_fst r; rw [hp] at this
      exact List.mem_of_mem_head? (this ▸ rfl)
    have hmark := isBlank_hasAttrMark (h l hmem)
    refine ⟨r₁, ?_, hlines⟩
    rw [nextAttr, nextLineIf, hp]
    simp [hmark]

theorem nextAttrs_of_attr_none {r r' : Reader} (h : nextAttr r = .ok (none, r')) :
    nextAttrs r = .ok ([], r') := by
  rw [nextAttrs, nextAttrsGo, h]

/-! ## C7: empty title/subtitle input is fatal -/

/-- C7.  Parsing a `title` or `subtitle` section from a reader whose
remaining input is empty (or consists only of blank lines, which the
parser skips) fails with the empty-title error; no default content is
substituted. -/
theorem title_requires_nonempty_line (fuel : Nat) (r : Reader)
    (h : ∀ l ∈ r.lines, isBlank l = true) :
    parseSection (fuel + 1) r "title" = .error .emptyTitle ∧
    parseSection (fuel + 1) r "subtitle" = .error .emptyTitle := by
  obtain ⟨r₁, hA, hL⟩ := nextAttr_all_blank h
  have hAs := nextAttrs_of_attr_none hA
  have hsb : skipBlanks r₁ = ⟨none, []⟩ := skipBlanks_all_blank (by rw [hL]; exact h)
  constructor
  · rw [show parseSection (fuel + 1) r "title" = parseTextSection "title" r from rfl,
      parseTextSection, hAs]
    simp [hsb, nextLine, peekLine]
  · rw [show parseSection (fuel + 1) r "subtitle" = parseTextSection "subtitle" r from rfl,
      parseTextSection, hAs]
    simp [hsb, nextLine, peekLine]

/-- Witness for C7: the empty reader. -/
theorem title_requires_nonempty_line_witness :
    parseSection 1 (Reader.mk none []) "title" = .error .emptyTitle ∧
    parseSection 1 (Reader.mk none []) "subtitle" = .error .emptyTitle :=
  title_requires_nonempty_line 0 (Reader.mk none []) (by simp [Reader.lines])

/-! ## C6: unknown section keywords are fatal -/

/-- C6.  Every marker keyword that is not a fenced-code marker and not in
the closed set of recognized section names makes `Section::parse` fail
with the unknown-section error naming that keyword, whatever the rest of
the input is; in particular the whole parse of `--bogus\ntext` fails with
the unknown-section error naming `bogus`, and no page is produced. -/
theorem unknown_section_fatal (fuel : Nat) (r : Reader) (sec : String)
    (h1 : startsWithL sec "```" = false) (h2 : sec ∉ knownSectionNames) :
    parseSection (fuel + 1) r sec = .error (.unknownSection sec) ∧
    Page.fromSource "--bogus\ntext" = .error (.unknownSection "bogus") := by
  refine ⟨?_, rfl⟩
  have hstrip : stripPre sec "```" = none := by rw [stripPre, h1]; rfl
  have hk : ∀ x, x ∈ knownSectionNames → sec ≠ x := fun x hx he => h2 (he ▸ hx)
  have hT : sec ∉ textSectionNames := fun hm =>
    h2 (by rw [knownSectionNames]
           exact List.mem_append_left _ (List.mem_append_left _
             (List.mem_append_left _ (List.mem_append_left _ hm))))
  have hCs : sec ∉ containerSlashNames := fun hm =>
    h2 (by rw [knownSectionNames]
           exact List.mem_append_left _ (List.mem_append_left _ (List.mem_append_right _ hm)))
  have hCo : sec ∉ codeSectionNames := fun hm =>
    h2 (by rw [knownSectionNames]
           exact List.mem_append_left _ (List.mem_append_right _ hm))
  have hAs : ¬(sec = "aside") := hk "aside" (by decide)
  have hBq : ¬(sec = "blockquote") := hk "blockquote" (by decide)
  have hRf : ¬(sec = "ref") := hk "ref" (by decide)
  have hNW : ¬(sec = "note" ∨ sec = "warning") := by
    rintro (he | he)
    exacts [hk "note" (by decide) he, hk "warning" (by decide) he]
  have hHr : ¬(sec = "hr") := hk "hr" (by decide)
  have hBm : ¬(sec = "bookmark") := hk "bookmark" (by decide)
  have hNs : ¬(sec = "notes" ∨ sec = "warnings") := by
    rintro (he | he)
    exacts [hk "notes" (by decide) he, hk "warnings" (by decide) he]
  have hLs : ¬(sec = "list" ∨ sec = "olist") := by
    rintro (he | he)
    exacts [hk "list" (by decide) he, hk "olist" (by decide) he]
  have hCh : ¬(sec = "checklist" ∨ sec = "todo") := by
    rintro (he | he)
    exacts [hk "checklist" (by decide) he, hk "todo" (by decide) he]
  have hIm : ¬(sec = "image") := hk "image" (by decide)
  have hYt : ¬(sec = "youtube") := hk "youtube" (by decide)
  have hVm : ¬(sec = "vimeo") := hk "vimeo" (by decide)
  have hHd : ¬(sec = "hidden") := hk "hidden" (by decide)
  have hMd : ¬(sec = "metadata") := hk "metadata" (by decide)
  have hCt : ¬(sec = "categories") := hk "categories" (by decide)
  rw [parseSection, hstrip]
  rw [if_neg hT, if_neg hAs, if_neg hBq, if_neg hRf, if_neg hNW, if_neg hCs, if_neg hCo,
    if_neg hHr, if_neg hBm, if_neg hNs, if_neg hLs, if_neg hCh, if_neg hIm, if_neg hYt,
    if_neg hVm, if_neg hHd, if_neg hMd, if_neg hCt]

/-- Witness for C6: the keyword `bogus` with an empty reader. -/
theorem unknown_section_fatal_witness :
    parseSection 1 (Reader.mk none []) "bogus" = .error (.unknownSection "bogus") ∧
    Page.fromSource "--bogus\ntext" = .error (.unknownSection "bogus") :=
  unknown_section_fatal 0 (Reader.mk none []) "bogus" (by decide) (by decide)

/-! ## C10: the `css` keyword stores (and emits) the `style` tag -/

/-- C10.  `map_code_tag` sends `css` to `style` and every other tag to
itself; consequently both the `--css` form and the `--css/` container-style
form produce a `Code` section whose stored tag is `"style"`, every other
code-family keyword (`code`, `pre`, `script`, `html`) keeps its own name
in both forms, and the emitted HTML element for a `"style"`-tagged code
section is `<style>...</style>`. -/
theorem css_code_tag_maps_to_style (fuel : Nat) (r : Reader) (attrs : List Attribute)
    (r₁ : Reader) (hA : nextAttrs r = .ok (attrs, r₁)) :
    mapCodeTag "css" = "style" ∧ (∀ t, t ≠ "css" → mapCodeTag t = t) ∧
    parseSection (fuel + 1) r "css" =
      .ok (.code "style" attrs (nextTextUntilSection true r₁).1,
        (nextTextUntilSection true r₁).2) ∧
    parseSection (fuel + 1) r "css/" =
      .ok (.code "style" attrs (nextTextUntilTag "css" true r₁).1,
        (nextTextUntilTag "css" true r₁).2) ∧
    (∀ t, t ∈ (["code", "pre", "script", "html"] : List String) →
      parseSection (fuel + 1) r t =
        .ok (.code t attrs (nextTextUntilSection true r₁).1,
          (nextTextUntilSection true r₁).2) ∧
      parseSection (fuel + 1) r (t ++ "/") =
        .ok (.code t attrs (nextTextUntilTag t true r₁).1,
          (nextTextUntilTag t true r₁).2)) ∧
    (∀ (fmt flink : String → String) (content : String),
      sectionToHtml fmt flink (.code "style" [] content) =
        .ok ("<style>" ++ (content ++ "</style>"))) := by
  have hplain : ∀ t : String, parseSection (fuel + 1) r t = parseCodeSection t r →
      parseSection (fuel + 1) r t =
        .ok (.code (mapCodeTag t) attrs (nextTextUntilSection true r₁).1,
          (nextTextUntilSection true r₁).2) := by
    intro t hb
    rw [hb, parseCodeSection, hA]
  have hslash : ∀ t : String,
      (parseSection (fuel + 1) r (t ++ "/") =
        (match nextAttrs r with
         | .error e => .error e
         | .ok (attrs, r₁) =>
           .ok (.code (mapCodeTag t) attrs (nextTextUntilTag t true r₁).1,
             (nextTextUntilTag t true r₁).2))) →
      parseSection (fuel + 1) r (t ++ "/") =
        .ok (.code (mapCodeTag t) attrs (nextTextUntilTag t true r₁).1,
          (nextTextUntilTag t true r₁).2) := by
    intro t hb
    rw [hb, hA]
  refine ⟨rfl, ?_, hplain "css" rfl, hslash "css" rfl, ?_, ?_⟩
  · intro t h
    rw [mapCodeTag, if_neg h]
  · intro t ht
    fin_cases ht
    · exact ⟨hplain "code" rfl, hslash "code" rfl⟩
    · exact ⟨hplain "pre" rfl, hslash "pre" rfl⟩
    · exact ⟨hplain "script" rfl, hslash "script" rfl⟩
    · exact ⟨hplain "html" rfl, hslash "html" rfl⟩
  · intro fmt flink content
    rw [sectionToHtml]
    simp only [attrsHtml, hasAttrShow, List.foldl_nil, List.any_nil]
    norm_num
    rw [String.ext_iff]
    simp [String.data_append]

/-- Witness for C10 at the empty reader (no attribute lines). -/
theorem css_code_tag_maps_to_style_witness :
    parseSection 1 (Reader.mk none []) "css" =
      .ok (.code "style" [] "", Reader.mk none []) ∧
    parseSection 1 (Reader.mk none []) "css/" =
      .ok (.code "style" [] "", Reader.mk none []) :=
  ⟨(css_code_tag_maps_to_style 0 (Reader.mk none []) [] (Reader.mk none []) rfl).2.2.1,
    (css_code_tag_maps_to_style 0 (Reader.mk none []) [] (Reader.mk none []) rfl).2.2.2.1⟩

/-! ## C8: HTML emission never fails -/

mutual

theorem sectionToHtml_isOk (fmt flink : String → String) (s : Section) :
    ∃ out, sectionToHtml fmt flink s = .ok out := by
  cases s with
  | container tg attrs children =>
    obtain ⟨inner, hi⟩ := sectionsToHtml_isOk fmt flink children
    refine ⟨"<" ++ tg ++ attrsHtml attrs ++ ">" ++ titleHtml fmt attrs ++ inner ++
      "</" ++ tg ++ ">", ?_⟩
    simp only [sectionToHtml, hi]
  | text tg cls attrs content => exact ⟨_, by simp only [sectionToHtml]; rfl⟩
  | textWrapper tg attrs content => exact ⟨_, by simp only [sectionToHtml]; rfl⟩
  | code tg attrs content => exact ⟨_, by simp only [sectionToHtml]; rfl⟩
  | tag tg attrs => exact ⟨_, by simp only [sectionToHtml]; rfl⟩
  | bookmark attrs content => exact ⟨_, by simp only [sectionToHtml]; rfl⟩
  | notes cls attrs content => exact ⟨_, by simp only [sectionToHtml]; rfl⟩
  | list tg attrs content => exact ⟨_, by simp only [sectionToHtml]; rfl⟩
  | checklist attrs prelude content todo => exact ⟨_, by simp only [sectionToHtml]; rfl⟩
  | image src attrs => exact ⟨_, by simp only [sectionToHtml]; rfl⟩
  | youtube vid => exact ⟨_, by simp only [sectionToHtml]; rfl⟩
  | vimeo vid => exact ⟨_, by simp only [sectionToHtml]; rfl⟩
  | hidden content => exact ⟨_, by simp only [sectionToHtml]; rfl⟩
  | metadata data => exact ⟨_, by simp only [sectionToHtml]; rfl⟩
  | categories cats => exact ⟨_, by simp only [sectionToHtml]; rfl⟩

theorem sectionsToHtml_isOk (fmt flink : String → String) (l : List Section) :
    ∃ out, sectionsToHtml fmt flink l = .ok out := by
  cases l with
  | nil => exact ⟨"", by simp only [sectionsToHtml]⟩
  | cons s rest =>
    obtain ⟨h1, e1⟩ := sectionToHtml_isOk fmt flink s
    obtain ⟨h2, e2⟩ := sectionsToHtml_isOk fmt flink rest
    exact ⟨h1 ++ h2, by simp only [sectionsToHtml, e1, e2]⟩

end

/-- C8.  For every section tree and every inline formatter / link resolver
(absorbing the project-root argument), `Section::to_html` returns `Ok`,
and hence so do `Page::to_html` and `Page::to_html_string`: the
`PageBuildError` branch of emission is unreachable. -/
theorem emission_never_fails :
    (∀ (fmt flink : String → String) (s : Section),
      ∃ out, sectionToHtml fmt flink s = .ok out) ∧
    (∀ (fmt flink : String → String) (p : Page),
      ∃ out, Page.toHtml fmt flink p = .ok out) :=
  ⟨fun fmt flink s => sectionToHtml_isOk fmt flink s,
    fun fmt flink p => sectionsToHtml_isOk fmt flink p.sections⟩

/-! ## Text-accumulator lemmas -/

theorem nextTextGo_flip {σ : Type} (f : σ → String → Option String × σ) (raw : Bool)
    (fuel : Nat) (s : σ) (l : String) (rest : List String) (text : String) :
    nextTextGo f raw (fuel + 1) s ⟨some l, rest⟩ text =
      nextTextGo f raw (fuel + 1) s ⟨none, l :: rest⟩ text := rfl

theorem nextTextGo_nil {σ : Type} (f : σ → String → Option String × σ) (raw : Bool)
    (fuel : Nat) (s : σ) (text : String) :
    nextTextGo f raw (fuel + 1) s ⟨none, []⟩ text = (text, ⟨none, []⟩) := rfl

theorem skipBlanks_cons_nonblank {l : String} {rest : List String}
    (h : isBlank l = false) : skipBlanks ⟨none, l :: rest⟩ = ⟨some l, rest⟩ := by
  rw [skipBlanks,
    show Reader.size ⟨none, l :: rest⟩ + 1 = (rest.length + 1) + 1 from by
      simp [Reader.size],
    skipBlanksGo]
  simp [nextLineIf, peekLine, h]

/-- Raw accumulation over a fully accepted suffix: every line is appended
verbatim plus a newline, and the reader is exhausted. -/
theorem nextTextGo_raw_all (f : String → Option String) :
    ∀ (lines : List String) (fuel : Nat) (text : String),
      lines.length < fuel → (∀ l ∈ lines, f l = some l) →
      nextTextGo (fun (_ : Unit) l => (f l, ())) true fuel () ⟨none, lines⟩ text =
        (lines.foldl (fun acc l => acc ++ l ++ "\n") text, ⟨none, []⟩) := by
  intro lines
  induction lines with
  | nil =>
    intro fuel text hf _
    cases fuel with
    | zero => omega
    | succ n => exact nextTextGo_nil _ _ _ _ _
  | cons l rest ih =>
    intro fuel text hf hacc
    cases fuel with
    | zero => omega
    | succ n =>
      rw [nextTextGo]
      simp only [peekLine, hacc l (by simp)]
      rw [ih n (text ++ l ++ "\n") (by simp only [List.length_cons] at hf; omega)
        (fun x hx => hacc x (by simp [hx]))]
      simp

/-! ## C3: raw fidelity (corrected) -/

/-- Counterexample to C3 as stated: raw accumulation of the two non-blank
lines `"a"` and `"b "` yields `"a\nb"`, not the claimed `"a\nb "`: the
final `trim_end` removes the trailing space of the last line together with
the final newline, so the last line is not preserved verbatim. -/
theorem raw_fidelity_counterexample :
    (nextTextUntilSection true ⟨none, ["a", "b "]⟩).1 = "a\nb" ∧
    ¬ ((nextTextUntilSection true ⟨none, ["a", "b "]⟩).1 = "a\nb ") := by
  constructor
  · rfl
  · decide

/-- C3 (amended).  Raw accumulation of N lines, none blank, all accepted
by the filter, appends each line verbatim followed by `'\n'` and then
trims all trailing whitespace — the final newline and any trailing
whitespace of the last line — from the result. -/
theorem raw_fidelity_amended (f : String → Option String) (lines : List String)
    (hacc : ∀ l ∈ lines, f l = some l) (hnb : ∀ l ∈ lines, isBlank l = false) :
    nextTextP f true ⟨none, lines⟩ =
      (rustTrimEnd (lines.foldl (fun acc l => acc ++ l ++ "\n") ""), ⟨none, []⟩) := by
  cases lines with
  | nil => rfl
  | cons l rest =>
    simp only [nextTextP, nextTextS]
    rw [skipBlanks_cons_nonblank (hnb l (by simp)),
      show Reader.size ⟨some l, rest⟩ + 1 = (rest.length + 1) + 1 from by
        simp [Reader.size]; omega,
      nextTextGo_flip,
      nextTextGo_raw_all f (l :: rest) ((rest.length + 1) + 1) ""
        (by simp) hacc]
    simp

/-- Witness for C3 (amended) at the lines `["a", "b "]` with the
until-section filter: the accumulated result is `"a\nb"`. -/
theorem raw_fidelity_amended_witness :
    nextTextP (fun l => if hasSectionMark l then none else some l) true
      ⟨none, ["a", "b "]⟩ = ("a\nb", ⟨none, []⟩) := by
  rw [raw_fidelity_amended (fun l => if hasSectionMark l then none else some l)
    ["a", "b "] (by decide) (by decide)]
  exact rfl

/-! ## C2: blank lines in flowed accumulation (corrected) -/

/-- One flowed accumulation step: join with a single space unless the text
already ends in a newline (statement helper describing the loop body). -/
def flowFold (text : String) (run : List String) : String :=
  run.foldl (fun acc l => if endsWithChar acc '\n' then acc ++ l else acc ++ " " ++ l) text

/-- `k` newline characters (statement helper). -/
def nlString (k : Nat) : String := ⟨List.replicate k '\n'⟩

theorem nextTextGo_flow_nonblank_step (f : String → Option String) (l : String)
    (rest : List String) (fuel : Nat) (text : String)
    (hf : f l = some l) (hnb : isBlank l = false) :
    nextTextGo (fun (_ : Unit) x => (f x, ())) false (fuel + 1) () ⟨none, l :: rest⟩ text =
      nextTextGo (fun (_ : Unit) x => (f x, ())) false fuel () ⟨none, rest⟩
        (if endsWithChar text '\n' then text ++ l else text ++ " " ++ l) := by
  rw [nextTextGo]
  simp only [peekLine, hf, hnb]
  rcases h : endsWithChar text '\n' <;> simp [h]

theorem nextTextGo_flow_blank_step (f : String → Option String) (l : String)
    (rest : List String) (fuel : Nat) (text : String)
    (hf : f l = some l) (hb : isBlank l = true) :
    nextTextGo (fun (_ : Unit) x => (f x, ())) false (fuel + 1) () ⟨none, l :: rest⟩ text =
      nextTextGo (fun (_ : Unit) x => (f x, ())) false fuel () ⟨none, rest⟩ (text ++ "\n") := by
  rw [nextTextGo]
  simp only [peekLine, hf, hb]
  simp

theorem nextTextGo_flow_run (f : String → Option String) :
    ∀ (run rest : List String) (fuel : Nat) (text : String),
      (∀ l ∈ run, f l = some l ∧ isBlank l = false) →
      nextTextGo (fun (_ : Unit) x => (f x, ())) false (run.length + fuel) ()
          ⟨none, run ++ rest⟩ text =
        nextTextGo (fun (_ : Unit) x => (f x, ())) false fuel () ⟨none, rest⟩
          (flowFold text run) := by
  intro run
  induction run with
  | nil => intro rest fuel text _; simp [flowFold]
  | cons l run' ih =>
    intro rest fuel text h
    rw [show (l :: run').length + fuel = (run'.length + fuel) + 1 from by
      simp only [List.length_cons]; omega]
    rw [List.cons_append,
      nextTextGo_flow_nonblank_step f l (run' ++ rest) (run'.length + fuel) text
        (h l (by simp)).1 (h l (by simp)).2,
      ih rest fuel _ (fun x hx => h x (by simp [hx]))]
    rfl

theorem nextTextGo_flow_blanks (f : String → Option String) :
    ∀ (blanks rest : List String) (fuel : Nat) (text : String),
      (∀ l ∈ blanks, f l = some l ∧ isBlank l = true) →
      nextTextGo (fun (_ : Unit) x => (f x, ())) false (blanks.length + fuel) ()
          ⟨none, blanks ++ rest⟩ text =
        nextTextGo (fun (_ : Unit) x => (f x, ())) false fuel () ⟨none, rest⟩
          (text ++ nlString blanks.length) := by
  intro blanks
  induction blanks with
  | nil =>
    intro rest fuel text _
    have h0 : text ++ nlString 0 = text := by
      apply String.ext; simp [nlString]
    simp only [List.length_nil, List.nil_append, Nat.zero_add, h0]
  | cons l blanks' ih =>
    intro rest fuel text h
    rw [show (l :: blanks').length + fuel = (blanks'.length + fuel) + 1 from by
      simp only [List.length_cons]; omega]
    rw [List.cons_append,
      nextTextGo_flow_blank_step f l (blanks' ++ rest) (blanks'.length + fuel) text
        (h l (by simp)).1 (h l (by simp)).2,
      ih rest fuel _ (fun x hx => h x (by simp [hx]))]
    rw [String.append_assoc]
    rfl

/-- Counterexample to C2 as stated: with two consecutive blank lines
between the runs `"a"` and `"b"`, the flowed accumulation yields
`"a\n\nb"` — two newline characters, not the claimed single one. -/
theorem flowed_blank_lines_counterexample :
    (nextTextUntilSection false ⟨none, ["a", "", "", "b"]⟩).1 = "a\n\nb" ∧
    ¬ ((nextTextUntilSection false ⟨none, ["a", "", "", "b"]⟩).1.data.count '\n' = 1) :=
  ⟨rfl, by decide⟩

/-- C2 (amended).  In flowed accumulation, a run of non-blank lines, then
`k ≥ 1` consecutive blank lines, then a second run of non-blank lines
yields the first run joined by single spaces, then exactly `k` newline
characters — one `'\n'` per blank line, so exactly one `'\n'` when exactly
one blank line separates the runs — then the second run joined by single
spaces, the whole trimmed of leading/trailing whitespace. -/
theorem flowed_blank_lines_amended (f : String → Option String)
    (r1 blanks r2 : List String) (h1 : r1 ≠ []) (hb : blanks ≠ [])
    (hr1 : ∀ l ∈ r1, f l = some l ∧ isBlank l = false)
    (hr2 : ∀ l ∈ r2, f l = some l ∧ isBlank l = false)
    (hbl : ∀ l ∈ blanks, f l = some l ∧ isBlank l = true) :
    nextTextP f false ⟨none, r1 ++ blanks ++ r2⟩ =
      (rustTrim (flowFold (flowFold "" r1 ++ nlString blanks.length) r2),
        ⟨none, []⟩) := by
  obtain ⟨a, r1', rfl⟩ : ∃ a r1', r1 = a :: r1' := by
    cases r1 with
    | nil => exact absurd rfl h1
    | cons a t => exact ⟨a, t, rfl⟩
  have hsb : skipBlanks ⟨none, (a :: r1') ++ blanks ++ r2⟩ =
      ⟨some a, r1' ++ (blanks ++ r2)⟩ := by
    simp only [List.cons_append, List.append_assoc]
    exact skipBlanks_cons_nonblank (hr1 a (by simp)).2
  have hgo : nextTextGo (fun (_ : Unit) l => (f l, ())) false
      (Reader.size ⟨some a, r1' ++ (blanks ++ r2)⟩ + 1) ()
      ⟨some a, r1' ++ (blanks ++ r2)⟩ "" =
      (flowFold (flowFold "" (a :: r1') ++ nlString blanks.length) r2, ⟨none, []⟩) := by
    rw [show Reader.size ⟨some a, r1' ++ (blanks ++ r2)⟩ + 1 =
        (r1'.length + (blanks.length + r2.length) + 1) + 1 from by
      simp [Reader.size, List.length_append]; omega]
    rw [nextTextGo_flip]
    rw [show (⟨none, a :: (r1' ++ (blanks ++ r2))⟩ : Reader) =
        ⟨none, (a :: r1') ++ (blanks ++ r2)⟩ from rfl]
    rw [show r1'.length + (blanks.length + r2.length) + 1 + 1 =
        (a :: r1').length + (blanks.length + (r2.length + (0 + 1))) from by
      simp only [List.length_cons]; omega]
    rw [nextTextGo_flow_run f (a :: r1') (blanks ++ r2)
      (blanks.length + (r2.length + (0 + 1))) "" hr1]
    rw [nextTextGo_flow_blanks f blanks r2 (r2.length + (0 + 1)) _ hbl]
    rw [show (⟨none, r2⟩ : Reader) = ⟨none, r2 ++ []⟩ from by simp]
    rw [nextTextGo_flow_run f r2 [] (0 + 1) _ hr2]
    exact nextTextGo_nil _ _ _ _ _
  simp only [nextTextP, nextTextS, hsb, hgo]
  simp

/-- Witness for C2 (amended): runs `["a"]` and `["b"]` with two blank
lines in between and the until-section filter; the output is `"a\n\nb"`. -/
theorem flowed_blank_lines_amended_witness :
    nextTextP (fun l => if hasSectionMark l then none else some l) false
      ⟨none, ["a"] ++ ["", ""] ++ ["b"]⟩ = ("a\n\nb", ⟨none, []⟩) := by
  rw [flowed_blank_lines_amended (fun l => if hasSectionMark l then none else some l)
    ["a"] ["", ""] ["b"] (by decide) (by decide) (by decide) (by decide) (by decide)]
  exact rfl

/-! ## C4: heading continuation (corrected) -/

theorem replicate_isPrefixOf_iff (c : Char) :
    ∀ (k : Nat) (l : List Char),
      (List.replicate k c).isPrefixOf l = true ↔
        k ≤ (l.takeWhile (· == c)).length := by
  intro k
  induction k with
  | zero => intro l; simp
  | succ k ih =>
    intro l
    cases l with
    | nil => simp [List.replicate_succ]
    | cons x xs =>
      by_cases hx : x = c
      · subst hx
        simp only [List.replicate_succ, List.isPrefixOf_cons₂, List.takeWhile_cons,
          beq_self_eq_true, if_true, Bool.true_and, List.length_cons, ih,
          Nat.succ_le_succ_iff]
      · have hbe : (c == x) = false := by simp [Ne.symm hx]
        have hbe' : (x == c) = false := by simp [hx]
        simp [List.replicate_succ, List.isPrefixOf_cons₂, hbe, List.takeWhile_cons, hbe']

theorem singleton_isPrefixOf_iff (c : Char) (l : List Char) :
    [c].isPrefixOf l = true ↔ l.head? = some c := by
  cases l with
  | nil => simp
  | cons x xs =>
    simp only [List.isPrefixOf_cons₂, List.isPrefixOf_nil_left, Bool.and_true,
      beq_iff_eq, List.head?_cons, Option.some.injEq]
    exact ⟨fun h => h.symm, fun h => h.symm⟩

theorem drop_head_hash (c : Char) :
    ∀ (l : List Char) (k : Nat), k ≤ (l.takeWhile (· == c)).length →
      ((l.drop k).head? = some c ↔ k < (l.takeWhile (· == c)).length) := by
  intro l
  induction l with
  | nil =>
    intro k hk
    simp only [List.takeWhile_nil, List.length_nil, Nat.le_zero] at hk
    subst hk
    simp
  | cons x xs ih =>
    intro k hk
    by_cases hx : x = c
    · subst hx
      cases k with
      | zero => simp [List.takeWhile_cons]
      | succ k' =>
        simp only [List.takeWhile_cons, beq_self_eq_true, if_true, List.length_cons,
          Nat.succ_le_succ_iff] at hk
        simp only [List.drop_succ_cons, List.takeWhile_cons, beq_self_eq_true, if_true,
          List.length_cons, Nat.succ_lt_succ_iff]
        exact ih k' hk
    · have hbe : (x == c) = false := by simp [hx]
      simp only [List.takeWhile_cons, hbe] at hk
      simp only [Bool.false_eq_true, if_false, List.length_nil, Nat.le_zero] at hk
      subst hk
      simp [List.takeWhile_cons, hbe, hx]

/-- Counterexample to C4 as stated: after a `#` heading marker (depth
`k = 1`), the subsequent line `"# bar"` has leading-`#` depth `1 ≥ k`, yet
the continuation filter does *not* terminate the block there — it accepts
the line with the marker stripped — and consequently `# foo` followed by
`# bar` parses to a single `h1` section with content `"foo  bar"` instead
of two sections. -/
theorem heading_terminator_counterexample :
    ¬ (headingFilter "#" "# bar" = none) ∧
    headingFilter "#" "# bar" = some " bar" ∧
    Page.fromSource "# foo\n# bar" = .ok (Page.mk [.text "h1" none [] "foo  bar"]) :=
  ⟨by decide, rfl, rfl⟩

/-- C4 (amended).  For a heading opened by a marker of `k` `'#'`
characters, the text body's continuation filter never terminates at a
blank line, terminates at exactly the non-blank lines whose leading-`#`
depth *differs* from `k` (strictly greater — nested deeper — or strictly
smaller, including ordinary marker lines), and consumes lines of depth
exactly `k` (the heading marker itself among them) as continuation text
with the `#`-run stripped. -/
theorem heading_terminator_amended (k : Nat) (line : String) :
    (isBlank line = true → ∀ pre : String, headingFilter pre line = some line) ∧
    (isBlank line = false →
      (headingFilter ⟨List.replicate k '#'⟩ line = none ↔
        (line.data.takeWhile (· == '#')).length ≠ k)) := by
  constructor
  · intro hb pre
    rw [headingFilter]
    simp [hb]
  · intro hnb
    rw [headingFilter]
    simp only [hnb, Bool.false_eq_true, if_false]
    by_cases hk : (List.replicate k '#').isPrefixOf line.data = true
    · have hle : k ≤ (line.data.takeWhile (· == '#')).length :=
        (replicate_isPrefixOf_iff '#' k line.data).mp hk
      rw [stripPre, if_pos (by rw [startsWithL]; exact hk)]
      have hdata : (⟨List.replicate k '#'⟩ : String).data.length = k := by
        simp
      rw [hdata]
      rcases Nat.lt_or_ge k (line.data.takeWhile (· == '#')).length with hlt | hge
      all_goals
        rw [show (match some (⟨line.data.drop k⟩ : String) with
            | none => none
            | some rest => if startsWithL rest "#" = true then none else some rest) =
            (if startsWithL (⟨line.data.drop k⟩ : String) "#" = true then none
              else some (⟨line.data.drop k⟩ : String)) from rfl]
      · have hhead : (line.data.drop k).head? = some '#' :=
          (drop_head_hash '#' line.data k hle).mpr hlt
        rw [show startsWithL ⟨line.data.drop k⟩ "#" = true from by
          rw [startsWithL]
          exact (singleton_isPrefixOf_iff '#' _).mpr hhead]
        simp
        omega
      · have heq : (line.data.takeWhile (· == '#')).length = k := by omega
        have hhead : ¬ ((line.data.drop k).head? = some '#') := by
          rw [drop_head_hash '#' line.data k hle]
          omega
        rw [show startsWithL ⟨line.data.drop k⟩ "#" = false from by
          rw [startsWithL]
          cases hs : [('#' : Char)].isPrefixOf (line.data.drop k) with
          | false => rfl
          | true => exact absurd ((singleton_isPrefixOf_iff '#' _).mp hs) hhead]
        simp [heq]
    · rw [stripPre, if_neg (by rw [startsWithL]; exact hk)]
      have : ¬ k ≤ (line.data.takeWhile (· == '#')).length := fun hle =>
        hk ((replicate_isPrefixOf_iff '#' k line.data).mpr hle)
      simp
      omega

/-- Witness for C4 (amended): with a depth-1 marker, the blank line is
kept, the depth-2 line `"## x"` terminates, and the depth-1 line `"# y"`
does not. -/
theorem heading_terminator_amended_witness :
    headingFilter ⟨List.replicate 1 '#'⟩ "" = some "" ∧
    headingFilter ⟨List.replicate 1 '#'⟩ "## x" = none ∧
    ¬ (headingFilter ⟨List.replicate 1 '#'⟩ "# y" = none) :=
  ⟨(heading_terminator_amended 1 "").1 (by decide) _,
    ((heading_terminator_amended 1 "## x").2 (by decide)).mpr (by decide),
    fun h => absurd (((heading_terminator_amended 1 "# y").2 (by decide)).mp h) (by decide)⟩

end Oreneo
